import Mathlib

/-!
Shallow embedding of `harmonica_transpose.py`: the jianpu tokenizer,
pitch transposer and renderer, together with proofs about the claims of
the specification.

Python dict lookups are modelled as `Option`-returning functions (a
`KeyError` aborts the surrounding computation, hence the transposer
returns `Option`).  Python `%` and `//` on a positive divisor coincide
with Lean's `Int.emod` / `Int.ediv` (written `%` and `/` on `Int`),
which are also non-negative-remainder / floored for divisor `12`.
-/

namespace Harmonica

/-- Key offsets relative to C, from `KEY_OFFSETS` (dict get). -/
def KEY_OFFSETS (k : String) : Option Int :=
  if k = "G" then some (-5) else if k = "G#" then some (-4) else
  if k = "Ab" then some (-4) else
  if k = "A" then some (-3) else if k = "A#" then some (-2) else
  if k = "Bb" then some (-2) else
  if k = "B" then some (-1) else
  if k = "C" then some 0 else if k = "C#" then some 1 else
  if k = "Db" then some 1 else
  if k = "D" then some 2 else if k = "D#" then some 3 else
  if k = "Eb" then some 3 else
  if k = "E" then some 4 else
  if k = "F" then some 5 else if k = "F#" then some 6 else
  if k = "Gb" then some 6 else none

/-- Degree to base semitone, from `NOTE_SEMITONES` (dict lookup, may fail). -/
def NOTE_SEMITONES (n : Nat) : Option Int :=
  if n = 1 then some 0 else if n = 2 then some 2 else
  if n = 3 then some 4 else if n = 4 then some 5 else
  if n = 5 then some 7 else if n = 6 then some 9 else
  if n = 7 then some 11 else none

/-- Reverse table `SEMITONE_TO_NOTE`: semitone 0-11 to (digit string, accidental string). -/
def SEMITONE_TO_NOTE (s : Int) : Option (String × String) :=
  if s = 0 then some ("1", "") else if s = 1 then some ("1", "#") else
  if s = 2 then some ("2", "") else if s = 3 then some ("2", "#") else
  if s = 4 then some ("3", "") else if s = 5 then some ("4", "") else
  if s = 6 then some ("4", "#") else if s = 7 then some ("5", "") else
  if s = 8 then some ("5", "#") else if s = 9 then some ("6", "") else
  if s = 10 then some ("6", "#") else if s = 11 then some ("7", "") else none

/-- Python `str.capitalize()`: first character upper-cased, the rest lower-cased
(ASCII case mapping suffices for the key names involved). -/
def capitalize (s : String) : String :=
  match s.data with
  | [] => ""
  | c :: cs => String.mk (c.toUpper :: cs.map Char.toLower)

/-- `KEY_OFFSETS.get(key.capitalize(), 0)` as it appears in `transpose_tokens`. -/
def resolved_key_offset (k : String) : Int :=
  (KEY_OFFSETS (capitalize k)).getD 0

/-- The `Token` tagged union: `NoteToken(note_num, accidental, octave_offset)`
and `StrToken(text)`. -/
inductive Token where
  | note (note_num : Nat) (accidental : Int) (octave_offset : Int)
  | str (text : String)
  deriving DecidableEq, Repr

/-- `normalize_brackets`: the four sequential single-character `str.replace`
calls, each one a character-wise map. -/
def normalize_brackets (text : List Char) : List Char :=
  (((text.map (fun c => if c = '（' then '(' else c)).map
      (fun c => if c = '）' then ')' else c)).map
      (fun c => if c = '【' then '[' else c)).map
      (fun c => if c = '】' then ']' else c)

/-- Digits accepted as note degrees: `char.isdigit() and char in '1234567'`. -/
def isNoteDigit (c : Char) : Bool :=
  c.isDigit && (c == '1' || c == '2' || c == '3' || c == '4' ||
                c == '5' || c == '6' || c == '7')

/-- Numeric value of a degree digit, `int(char)`. -/
def digitVal (c : Char) : Nat := c.toNat - 48

/-- Python `int()` applied to a string of decimal digits (the degree
strings of `SEMITONE_TO_NOTE` are all single digits). -/
def str_toNat (s : String) : Nat :=
  s.data.foldl (fun n c => n * 10 + (c.toNat - 48)) 0

/-- The inner while-loop of `parse_segment` that scans for the matching
closing bracket by balance counting (balance starts at 1 at the character
after the opening bracket).  On success it splits the remaining characters
into the text strictly inside the brackets and the text after the match. -/
def findSplit (op cl : Char) : Nat → List Char → Option (List Char × List Char)
  | _, [] => none
  | bal, x :: xs =>
    if x = op then
      match findSplit op cl (bal + 1) xs with
      | some (inn, rest) => some (x :: inn, rest)
      | none => none
    else if x = cl then
      if bal = 1 then some ([], xs)
      else
        match findSplit op cl (bal - 1) xs with
        | some (inn, rest) => some (x :: inn, rest)
        | none => none
    else
      match findSplit op cl bal xs with
      | some (inn, rest) => some (x :: inn, rest)
      | none => none

theorem findSplit_length (op cl : Char) :
    ∀ (bal : Nat) (xs inn rest : List Char),
      findSplit op cl bal xs = some (inn, rest) →
      inn.length + rest.length + 1 = xs.length := by
  intro bal xs
  induction xs generalizing bal with
  | nil => intro inn rest h; simp [findSplit] at h
  | cons x xs ih =>
    intro inn rest h
    simp only [findSplit] at h
    by_cases hop : x = op
    · rw [if_pos hop] at h
      cases hfs : findSplit op cl (bal + 1) xs with
      | none => rw [hfs] at h; simp at h
      | some p =>
        rw [hfs] at h
        obtain ⟨inn0, rest0⟩ := p
        simp at h
        obtain ⟨h1, h2⟩ := h
        have := ih (bal + 1) inn0 rest0 hfs
        subst h1 h2
        simp; omega
    · rw [if_neg hop] at h
      by_cases hcl : x = cl
      · rw [if_pos hcl] at h
        by_cases hb : bal = 1
        · rw [if_pos hb] at h
          simp at h
          obtain ⟨h1, h2⟩ := h
          subst h1 h2; simp
        · rw [if_neg hb] at h
          cases hfs : findSplit op cl (bal - 1) xs with
          | none => rw [hfs] at h; simp at h
          | some p =>
            rw [hfs] at h
            obtain ⟨inn0, rest0⟩ := p
            simp at h
            obtain ⟨h1, h2⟩ := h
            have := ih (bal - 1) inn0 rest0 hfs
            subst h1 h2
            simp; omega
      · rw [if_neg hcl] at h
        cases hfs : findSplit op cl bal xs with
        | none => rw [hfs] at h; simp at h
        | some p =>
          rw [hfs] at h
          obtain ⟨inn0, rest0⟩ := p
          simp at h
          obtain ⟨h1, h2⟩ := h
          have := ih bal inn0 rest0 hfs
          subst h1 h2
          simp; omega

/-- The recursive scanner `parse_segment(segment_text, current_octave_offset)`:
brackets recurse into the enclosed text with the octave offset shifted by
∓1 (parentheses lower, square brackets raise); an unmatched opening
bracket is emitted as a one-character `StrToken` and scanning continues at
the same offset; `#`/`b`/`♭` followed by a degree digit form a `NoteToken`
with the accidental, a bare accidental is emitted as a `StrToken`; a bare
degree digit forms a `NoteToken`; any other character is a `StrToken`. -/
def parse_segment : List Char → Int → List Token
  | [], _ => []
  | c :: rest, d =>
    if c = '(' then
      match hsplit : findSplit '(' ')' 1 rest with
      | some (inner, after) =>
          parse_segment inner (d - 1) ++ parse_segment after d
      | none => Token.str "(" :: parse_segment rest d
    else if c = '[' then
      match hsplit : findSplit '[' ']' 1 rest with
      | some (inner, after) =>
          parse_segment inner (d + 1) ++ parse_segment after d
      | none => Token.str "[" :: parse_segment rest d
    else if c = '#' then
      match rest with
      | c2 :: rest2 =>
          if isNoteDigit c2 then Token.note (digitVal c2) 1 d :: parse_segment rest2 d
          else Token.str "#" :: parse_segment (c2 :: rest2) d
      | [] => [Token.str "#"]
    else if c = 'b' ∨ c = '♭' then
      match rest with
      | c2 :: rest2 =>
          if isNoteDigit c2 then Token.note (digitVal c2) (-1) d :: parse_segment rest2 d
          else Token.str (String.mk [c]) :: parse_segment (c2 :: rest2) d
      | [] => [Token.str (String.mk [c])]
    else if isNoteDigit c then
      Token.note (digitVal c) 0 d :: parse_segment rest d
    else
      Token.str (String.mk [c]) :: parse_segment rest d
termination_by s _ => s.length
decreasing_by
  all_goals simp_wf
  all_goals first
    | omega
    | (have hlen := findSplit_length _ _ _ _ _ _ hsplit; simp; omega)

/-- `parse_to_tokens`: normalize brackets, then scan at octave offset 0. -/
def parse_to_tokens (text : String) : List Token :=
  parse_segment (normalize_brackets text.data) 0

/-- The per-token body of the loop in `transpose_tokens`.  A `NoteToken` is
mapped through absolute pitch; `original_semitone = base + accidental`,
`absolute_pitch = original_semitone + source_offset + octave_offset * 12`,
`target_relative_pitch = absolute_pitch - target_offset`, then `% 12` /
`// 12` and the reverse table; `new_acc = 1 if new_acc_str == '#' else 0`
and `new_note_num = int(new_note_str)`.  A `StrToken` passes through.
A failed dict lookup (`KeyError`) yields `none`. -/
def transposeToken (source_offset target_offset : Int) : Token → Option Token
  | Token.note note_num accidental octave_offset =>
    match NOTE_SEMITONES note_num with
    | none => none
    | some base =>
      let original_semitone := base + accidental
      let absolute_pitch := original_semitone + source_offset + octave_offset * 12
      let target_relative_pitch := absolute_pitch - target_offset
      let new_note_semitone_val := target_relative_pitch % 12
      let new_octave := target_relative_pitch / 12
      match SEMITONE_TO_NOTE new_note_semitone_val with
      | none => none
      | some (new_note_str, new_acc_str) =>
        some (Token.note (str_toNat new_note_str)
          (if new_acc_str = "#" then 1 else 0) new_octave)
  | Token.str t => some (Token.str t)

/-- The loop of `transpose_tokens` over the token list. -/
def transpose_token_list (source_offset target_offset : Int) :
    List Token → Option (List Token)
  | [] => some []
  | t :: ts =>
    match transposeToken source_offset target_offset t with
    | none => none
    | some t1 =>
      match transpose_token_list source_offset target_offset ts with
      | none => none
      | some ts1 => some (t1 :: ts1)

/-- `transpose_tokens(tokens, source_key, target_key)`: resolve the two key
names (capitalized, defaulting to offset 0) and transpose each token. -/
def transpose_tokens (tokens : List Token) (source_key target_key : String) :
    Option (List Token) :=
  transpose_token_list (resolved_key_offset source_key)
    (resolved_key_offset target_key) tokens

/-- Rendering of one token in `render_tokens`: a `StrToken` is its text; a
`NoteToken` is accidental glyph + degree digit, wrapped in `abs(octave)`
parentheses (negative offset) or square brackets (positive offset). -/
def render_token : Token → String
  | Token.str t => t
  | Token.note note_num accidental octave_offset =>
    let acc_str := if accidental = 1 then "#"
      else if accidental = -1 then "b" else ""
    let note_str := acc_str ++ toString note_num
    if octave_offset < 0 then
      let count := octave_offset.natAbs
      String.mk (List.replicate count '(') ++ note_str ++
        String.mk (List.replicate count ')')
    else if octave_offset > 0 then
      let count := octave_offset.toNat
      String.mk (List.replicate count '[') ++ note_str ++
        String.mk (List.replicate count ']')
    else note_str

/-- `render_tokens`: concatenate the rendering of every token. -/
def render_tokens (tokens : List Token) : String :=
  String.join (tokens.map render_token)

/-- `transpose_sheet(text, target_key, source_key)`: parse, transpose,
render; the warnings list is always empty. -/
def transpose_sheet (text target_key source_key : String) :
    Option (String × List String) :=
  match transpose_tokens (parse_to_tokens text) source_key target_key with
  | none => none
  | some ts => some (render_tokens ts, [])

/-- A note spelling the transposer itself can produce: a natural degree, or
a sharp on one of the five black-key degrees 1, 2, 4, 5, 6 (`StrToken`s are
always canonical).  The degree must be in the `NOTE_SEMITONES` table. -/
def canonical_token : Token → Bool
  | Token.note n a _ =>
      (NOTE_SEMITONES n).isSome &&
        (a == 0 || (a == 1 && !(n == 3) && !(n == 7)))
  | Token.str _ => true

/-- Add `e` to the octave offset of a note token; leave a literal alone. -/
def shiftTok (e : Int) : Token → Token
  | Token.note n a o => Token.note n a (o + e)
  | Token.str s => Token.str s

/-- Note degrees produced by the scanner are always 1..7. -/
def note_num_ok : Token → Prop
  | Token.note n _ _ => 1 ≤ n ∧ n ≤ 7
  | Token.str _ => True

/-- Characters with no role in the notation: not a bracket (ASCII or
full-width), not an accidental mark, not a degree digit. -/
def plain_char (c : Char) : Bool :=
  !(c == '(' || c == ')' || c == '[' || c == ']' ||
    c == '（' || c == '）' || c == '【' || c == '】' ||
    c == '#' || c == 'b' || c == '♭' ||
    c == '1' || c == '2' || c == '3' || c == '4' ||
    c == '5' || c == '6' || c == '7')

/-- The characters of the literal tokens of a token list, in order. -/
def lit_chars : List Token → List Char
  | [] => []
  | Token.str s :: ts => s.data ++ lit_chars ts
  | Token.note _ _ _ :: ts => lit_chars ts

/-! ## Helper lemmas about the transposer -/

theorem NOTE_SEMITONES_cases (n : Nat) (b : Int)
    (h : NOTE_SEMITONES n = some b) :
    (n = 1 ∧ b = 0) ∨ (n = 2 ∧ b = 2) ∨ (n = 3 ∧ b = 4) ∨
    (n = 4 ∧ b = 5) ∨ (n = 5 ∧ b = 7) ∨ (n = 6 ∧ b = 9) ∨
    (n = 7 ∧ b = 11) := by
  unfold NOTE_SEMITONES at h
  split_ifs at h <;> simp_all

/-- Full description of `transposeToken` on a note whose degree is in the
table: the output octave is the floored quotient of the target-relative
pitch by 12, and the output degree/accidental decompose the non-negative
remainder through the reverse table, which never emits a flat and uses a
sharp only on degrees 1, 2, 4, 5, 6. -/
theorem transposeToken_note_spec (so tg : Int) (n : Nat) (a o base : Int)
    (hb : NOTE_SEMITONES n = some base) :
    ∃ d1 a1 b1,
      transposeToken so tg (Token.note n a o) =
        some (Token.note d1 a1 ((base + a + so + o * 12 - tg) / 12)) ∧
      NOTE_SEMITONES d1 = some b1 ∧
      b1 + a1 = (base + a + so + o * 12 - tg) % 12 ∧
      (a1 = 0 ∨ (a1 = 1 ∧ d1 ≠ 3 ∧ d1 ≠ 7)) ∧
      1 ≤ d1 ∧ d1 ≤ 7 ∧
      SEMITONE_TO_NOTE ((base + a + so + o * 12 - tg) % 12) =
        some (toString d1, if a1 = 1 then "#" else "") := by
  have h0 : 0 ≤ (base + a + so + o * 12 - tg) % 12 :=
    Int.emod_nonneg _ (by norm_num)
  have h12 : (base + a + so + o * 12 - tg) % 12 < 12 :=
    Int.emod_lt_of_pos _ (by norm_num)
  simp only [transposeToken, hb]
  generalize hgen : (base + a + so + o * 12 - tg) % 12 = r at h0 h12 ⊢
  interval_cases r <;>
    exact ⟨_, _, _, rfl, rfl, by decide, by decide, by decide, by decide, rfl⟩

/-- `transposeToken` hits a prescribed canonical result exactly when the
target-relative pitch decomposes accordingly. -/
theorem transposeToken_note_exact (so tg : Int) (m : Nat) (am om bm : Int)
    (hbm : NOTE_SEMITONES m = some bm)
    (n : Nat) (base a o : Int) (hb : NOTE_SEMITONES n = some base)
    (hcanon : a = 0 ∨ (a = 1 ∧ n ≠ 3 ∧ n ≠ 7))
    (hrel : bm + am + so + om * 12 - tg = base + a + 12 * o) :
    transposeToken so tg (Token.note m am om) = some (Token.note n a o) := by
  have hcases := NOTE_SEMITONES_cases n base hb
  have hk0 : 0 ≤ base + a ∧ base + a < 12 := by
    rcases hcases with ⟨hn, hb0⟩ | ⟨hn, hb0⟩ | ⟨hn, hb0⟩ | ⟨hn, hb0⟩ |
      ⟨hn, hb0⟩ | ⟨hn, hb0⟩ | ⟨hn, hb0⟩ <;>
      rcases hcanon with ha | ⟨ha, h3, h7⟩ <;> omega
  have h1 : (base + a + 12 * o) % 12 = base + a := by omega
  have h2 : (base + a + 12 * o) / 12 = o := by omega
  simp only [transposeToken, hbm]
  rw [hrel, h1, h2]
  rcases hcases with ⟨hn, hb0⟩ | ⟨hn, hb0⟩ | ⟨hn, hb0⟩ | ⟨hn, hb0⟩ |
    ⟨hn, hb0⟩ | ⟨hn, hb0⟩ | ⟨hn, hb0⟩ <;>
    rcases hcanon with ha | ⟨ha, h3, h7⟩ <;> subst hn <;> subst hb0 <;>
      subst ha <;> first | rfl | omega

theorem transpose_tokens_singleton (t : Token) (sk tk : String) :
    transpose_tokens [t] sk tk =
      match transposeToken (resolved_key_offset sk) (resolved_key_offset tk) t with
      | none => none
      | some t1 => some [t1] := by
  cases h : transposeToken (resolved_key_offset sk) (resolved_key_offset tk) t <;>
    simp [transpose_tokens, transpose_token_list, h]

theorem roundtrip_token (so tg : Int) (t : Token)
    (h : canonical_token t = true) :
    (transposeToken so tg t).bind (transposeToken tg so) = some t := by
  cases t with
  | str s => rfl
  | note n a o =>
    simp only [canonical_token, Bool.and_eq_true, Bool.or_eq_true,
      Bool.not_eq_true', beq_eq_false_iff_ne, beq_iff_eq, ne_eq,
      Option.isSome_iff_exists] at h
    obtain ⟨⟨base, hb⟩, hrest⟩ := h
    obtain ⟨d1, a1, b1, heq, hnb, hsum, _, _, _, _⟩ :=
      transposeToken_note_spec so tg n a o base hb
    rw [heq]
    simp only [Option.some_bind]
    exact transposeToken_note_exact tg so d1 a1
      ((base + a + so + o * 12 - tg) / 12) b1 hnb n base a o hb
      (by tauto) (by omega)

theorem roundtrip_list (so tg : Int) (ts : List Token)
    (h : ∀ t ∈ ts, canonical_token t = true) :
    (transpose_token_list so tg ts).bind (transpose_token_list tg so) =
      some ts := by
  induction ts with
  | nil => rfl
  | cons t ts ih =>
    have h1 := roundtrip_token so tg t (h t (by simp))
    have h2 := ih (fun u hu => h u (by simp [hu]))
    obtain ⟨t1, ht1, ht1b⟩ := Option.bind_eq_some.mp h1
    obtain ⟨ts1, hts1, hts1b⟩ := Option.bind_eq_some.mp h2
    simp only [transpose_token_list, ht1, hts1, Option.some_bind]
    simp [transpose_token_list, ht1b, hts1b]

/-! ## Claim theorems -/

/-- C1: for every `NoteToken(degree, accidental, octaveOffset)` whose degree
is in the scale table and any two key names, the transposer computes
`absolutePitch = NOTE_SEMITONES[degree] + accidental + sourceKeyOffset +
12*octaveOffset` and `targetRelative = absolutePitch - targetKeyOffset`,
and outputs the note whose octave offset is the floored quotient
`targetRelative / 12` (so `newOctaveOffset*12 + newSemitone =
targetRelative`), whose semitone is the non-negative remainder
`targetRelative mod 12`, mapped back to `(degree, accidental)` through the
fixed reverse table `SEMITONE_TO_NOTE`, which never emits a flat. -/
theorem C1_absolute_pitch_transposition (sk tk : String) (n : Nat)
    (a o base : Int) (hb : NOTE_SEMITONES n = some base) :
    ∃ d1 a1,
      transpose_tokens [Token.note n a o] sk tk =
        some [Token.note d1 a1
          ((base + a + resolved_key_offset sk + o * 12 -
            resolved_key_offset tk) / 12)] ∧
      ((base + a + resolved_key_offset sk + o * 12 -
          resolved_key_offset tk) / 12) * 12 +
        (base + a + resolved_key_offset sk + o * 12 -
          resolved_key_offset tk) % 12 =
        base + a + resolved_key_offset sk + o * 12 -
          resolved_key_offset tk ∧
      0 ≤ (base + a + resolved_key_offset sk + o * 12 -
          resolved_key_offset tk) % 12 ∧
      (base + a + resolved_key_offset sk + o * 12 -
          resolved_key_offset tk) % 12 < 12 ∧
      SEMITONE_TO_NOTE ((base + a + resolved_key_offset sk + o * 12 -
          resolved_key_offset tk) % 12) =
        some (toString d1, if a1 = 1 then "#" else "") ∧
      (a1 = 0 ∨ a1 = 1) := by
  obtain ⟨d1, a1, b1, heq, hnb, hsum, hcan, hd1, hd7, htab⟩ :=
    transposeToken_note_spec (resolved_key_offset sk)
      (resolved_key_offset tk) n a o base hb
  refine ⟨d1, a1, ?_, by omega, by omega, by omega, htab, by tauto⟩
  rw [transpose_tokens_singleton, heq]

/-- Witness for C1 at degree 1, key C to key D. -/
theorem C1_witness :
    NOTE_SEMITONES 1 = some 0 ∧
    (∃ d1 a1,
      transpose_tokens [Token.note 1 0 0] "C" "D" =
        some [Token.note d1 a1
          ((0 + 0 + resolved_key_offset "C" + 0 * 12 -
            resolved_key_offset "D") / 12)] ∧
      ((0 + 0 + resolved_key_offset "C" + 0 * 12 -
          resolved_key_offset "D") / 12) * 12 +
        (0 + 0 + resolved_key_offset "C" + 0 * 12 -
          resolved_key_offset "D") % 12 =
        0 + 0 + resolved_key_offset "C" + 0 * 12 -
          resolved_key_offset "D" ∧
      0 ≤ (0 + 0 + resolved_key_offset "C" + 0 * 12 -
          resolved_key_offset "D") % 12 ∧
      (0 + 0 + resolved_key_offset "C" + 0 * 12 -
          resolved_key_offset "D") % 12 < 12 ∧
      SEMITONE_TO_NOTE ((0 + 0 + resolved_key_offset "C" + 0 * 12 -
          resolved_key_offset "D") % 12) =
        some (toString d1, if a1 = 1 then "#" else "") ∧
      (a1 = 0 ∨ a1 = 1)) :=
  ⟨rfl, C1_absolute_pitch_transposition "C" "D" 1 0 0 0 rfl⟩

/-- C2 counterexample: transposing `#3` from C to C is not the identity —
the transposer respells it as the natural degree `4` (same pitch). -/
theorem C2_counterexample :
    transpose_tokens [Token.note 3 1 0] "C" "C" = some [Token.note 4 0 0] ∧
    some [Token.note 4 0 0] ≠ some [Token.note 3 1 0] := by
  exact ⟨rfl, by decide⟩

/-- C2 (amended): transposing from K to K preserves every note's absolute
pitch (`base + accidental + 12*octave`), and is the exact identity on
every note in canonical spelling (accidental 0, or sharp on a degree other
than 3 and 7); a non-canonical spelling is respelled enharmonically. -/
theorem C2_same_key_transposition (K : String) (n : Nat) (a o base : Int)
    (hb : NOTE_SEMITONES n = some base) :
    (∃ d1 a1 o1 b1,
        transpose_tokens [Token.note n a o] K K = some [Token.note d1 a1 o1] ∧
        NOTE_SEMITONES d1 = some b1 ∧
        b1 + a1 + 12 * o1 = base + a + 12 * o) ∧
    ((a = 0 ∨ (a = 1 ∧ n ≠ 3 ∧ n ≠ 7)) →
      transpose_tokens [Token.note n a o] K K = some [Token.note n a o]) := by
  constructor
  · obtain ⟨d1, a1, b1, heq, hnb, hsum, _, _, _, _⟩ :=
      transposeToken_note_spec (resolved_key_offset K)
        (resolved_key_offset K) n a o base hb
    refine ⟨d1, a1,
      (base + a + resolved_key_offset K + o * 12 - resolved_key_offset K) / 12,
      b1, ?_, hnb, by omega⟩
    rw [transpose_tokens_singleton, heq]
  · intro hcanon
    rw [transpose_tokens_singleton,
      transposeToken_note_exact (resolved_key_offset K)
        (resolved_key_offset K) n a o base hb n base a o hb hcanon (by ring)]

/-- Witness for C2 (amended) at note `1`, key G. -/
theorem C2_witness :
    NOTE_SEMITONES 1 = some 0 ∧
    ((∃ d1 a1 o1 b1,
        transpose_tokens [Token.note 1 0 0] "G" "G" =
          some [Token.note d1 a1 o1] ∧
        NOTE_SEMITONES d1 = some b1 ∧
        b1 + a1 + 12 * o1 = 0 + 0 + 12 * 0) ∧
    (((0:Int) = 0 ∨ ((0:Int) = 1 ∧ 1 ≠ 3 ∧ 1 ≠ 7)) →
      transpose_tokens [Token.note 1 0 0] "G" "G" =
        some [Token.note 1 0 0])) :=
  ⟨rfl, C2_same_key_transposition "G" 1 0 0 0 rfl⟩

/-- C3 counterexample: `#3` transposed C→D and back D→C returns `4`, not
`#3`: the round trip normalizes the enharmonic spelling. -/
theorem C3_counterexample :
    (transpose_tokens [Token.note 3 1 0] "C" "D").bind
      (fun us => transpose_tokens us "D" "C") = some [Token.note 4 0 0] ∧
    some [Token.note 4 0 0] ≠ some [Token.note 3 1 0] := by
  exact ⟨rfl, by decide⟩

/-- C3 (amended): for any two keys A and B, transposing from A to B and
back from B to A is the identity on every token sequence whose notes are
canonically spelled (which includes every sequence the transposer itself
produces); non-canonical spellings are normalized to their enharmonic
equivalent with pitch preserved. -/
theorem C3_round_trip (A B : String) (ts : List Token)
    (h : ∀ t ∈ ts, canonical_token t = true) :
    (transpose_tokens ts A B).bind (fun us => transpose_tokens us B A) =
      some ts := by
  simp only [transpose_tokens]
  exact roundtrip_list (resolved_key_offset A) (resolved_key_offset B) ts h

/-- Witness for C3 at a mixed token list, keys D and Eb. -/
theorem C3_witness :
    (∀ t ∈ [Token.note 1 1 0, Token.str "-", Token.note 7 0 (-2)],
        canonical_token t = true) ∧
    (transpose_tokens [Token.note 1 1 0, Token.str "-", Token.note 7 0 (-2)]
        "D" "Eb").bind
      (fun us => transpose_tokens us "Eb" "D") =
      some [Token.note 1 1 0, Token.str "-", Token.note 7 0 (-2)] :=
  ⟨by decide, C3_round_trip "D" "Eb" _ (by decide)⟩

/-- C4 counterexample: the key offset of G is −5, which is not in the
range 0–11 claimed by the specification. -/
theorem C4_counterexample :
    KEY_OFFSETS "G" = some (-5) ∧ ¬ (0 ≤ (-5 : Int) ∧ (-5 : Int) ≤ 11) :=
  ⟨rfl, by decide⟩

/-- C4 (amended): each canonical key name maps to an integer semitone
offset in the range −5..6 relative to C (C itself maps to 0), and
enharmonic spellings map to the same integer. -/
theorem C4_key_offsets :
    (∀ k v, KEY_OFFSETS k = some v → -5 ≤ v ∧ v ≤ 6) ∧
    KEY_OFFSETS "C" = some 0 ∧
    KEY_OFFSETS "C#" = KEY_OFFSETS "Db" ∧
    KEY_OFFSETS "D#" = KEY_OFFSETS "Eb" ∧
    KEY_OFFSETS "F#" = KEY_OFFSETS "Gb" ∧
    KEY_OFFSETS "G#" = KEY_OFFSETS "Ab" ∧
    KEY_OFFSETS "A#" = KEY_OFFSETS "Bb" := by
  refine ⟨?_, rfl, rfl, rfl, rfl, rfl, rfl⟩
  intro k v h
  rw [KEY_OFFSETS] at h
  by_cases h0 : k = "G"
  · rw [if_pos h0] at h; injection h with h; omega
  rw [if_neg h0] at h
  by_cases h1 : k = "G#"
  · rw [if_pos h1] at h; injection h with h; omega
  rw [if_neg h1] at h
  by_cases h2 : k = "Ab"
  · rw [if_pos h2] at h; injection h with h; omega
  rw [if_neg h2] at h
  by_cases h3 : k = "A"
  · rw [if_pos h3] at h; injection h with h; omega
  rw [if_neg h3] at h
  by_cases h4 : k = "A#"
  · rw [if_pos h4] at h; injection h with h; omega
  rw [if_neg h4] at h
  by_cases h5 : k = "Bb"
  · rw [if_pos h5] at h; injection h with h; omega
  rw [if_neg h5] at h
  by_cases h6 : k = "B"
  · rw [if_pos h6] at h; injection h with h; omega
  rw [if_neg h6] at h
  by_cases h7 : k = "C"
  · rw [if_pos h7] at h; injection h with h; omega
  rw [if_neg h7] at h
  by_cases h8 : k = "C#"
  · rw [if_pos h8] at h; injection h with h; omega
  rw [if_neg h8] at h
  by_cases h9 : k = "Db"
  · rw [if_pos h9] at h; injection h with h; omega
  rw [if_neg h9] at h
  by_cases h10 : k = "D"
  · rw [if_pos h10] at h; injection h with h; omega
  rw [if_neg h10] at h
  by_cases h11 : k = "D#"
  · rw [if_pos h11] at h; injection h with h; omega
  rw [if_neg h11] at h
  by_cases h12 : k = "Eb"
  · rw [if_pos h12] at h; injection h with h; omega
  rw [if_neg h12] at h
  by_cases h13 : k = "E"
  · rw [if_pos h13] at h; injection h with h; omega
  rw [if_neg h13] at h
  by_cases h14 : k = "F"
  · rw [if_pos h14] at h; injection h with h; omega
  rw [if_neg h14] at h
  by_cases h15 : k = "F#"
  · rw [if_pos h15] at h; injection h with h; omega
  rw [if_neg h15] at h
  by_cases h16 : k = "Gb"
  · rw [if_pos h16] at h; injection h with h; omega
  rw [if_neg h16] at h
  cases h

/-- Witness for the amended C4 at key G. -/
theorem C4_witness :
    KEY_OFFSETS "G" = some (-5) ∧ (-5 ≤ (-5 : Int) ∧ (-5 : Int) ≤ 6) :=
  ⟨rfl, C4_key_offsets.1 "G" (-5) rfl⟩

/-- C5 counterexample: transposing `"1234567"` from C to D does not raise
each degree by two semitones of notation; the code rewrites each pitch in
D coordinates, two semitones down: the output is `"(#6)12#2456"`, and in
particular degree 1 becomes `#6` an octave lower, not degree 2. -/
theorem C5_counterexample :
    transpose_sheet "1234567" "D" "C" = some ("(#6)12#2456", []) ∧
    transpose_tokens [Token.note 1 0 0] "C" "D" =
      some [Token.note 6 1 (-1)] ∧
    Token.note 6 1 (-1) ≠ Token.note 2 0 0 := by
  refine ⟨?_, rfl, by decide⟩
  simp [transpose_sheet, parse_to_tokens, normalize_brackets, parse_segment,
    findSplit, isNoteDigit, digitVal, transpose_tokens, transpose_token_list,
    transposeToken, render_tokens, render_token, resolved_key_offset,
    capitalize, KEY_OFFSETS, NOTE_SEMITONES, SEMITONE_TO_NOTE, str_toNat]
  decide

/-- C5 (amended): transposing `"1234567"` from source key C to target key D
rewrites every note two semitones lower in notation (preserving absolute
pitch): 1→`(#6)`, 2→`1`, 3→`2`, 4→`#2`, 5→`4`, 6→`5`, 7→`6`, so the
output is `"(#6)12#2456"`. -/
theorem C5_c_to_d_sheet :
    transpose_sheet "1234567" "D" "C" = some ("(#6)12#2456", []) ∧
    parse_to_tokens "1234567" =
      [Token.note 1 0 0, Token.note 2 0 0, Token.note 3 0 0,
       Token.note 4 0 0, Token.note 5 0 0, Token.note 6 0 0,
       Token.note 7 0 0] ∧
    transpose_tokens
      [Token.note 1 0 0, Token.note 2 0 0, Token.note 3 0 0,
       Token.note 4 0 0, Token.note 5 0 0, Token.note 6 0 0,
       Token.note 7 0 0] "C" "D" =
      some [Token.note 6 1 (-1), Token.note 1 0 0, Token.note 2 0 0,
            Token.note 2 1 0, Token.note 4 0 0, Token.note 5 0 0,
            Token.note 6 0 0] := by
  refine ⟨?_, ?_, rfl⟩
  · simp [transpose_sheet, parse_to_tokens, normalize_brackets, parse_segment,
      findSplit, isNoteDigit, digitVal, transpose_tokens, transpose_token_list,
      transposeToken, render_tokens, render_token, resolved_key_offset,
      capitalize, KEY_OFFSETS, NOTE_SEMITONES, SEMITONE_TO_NOTE, str_toNat]
    decide
  · simp [parse_to_tokens, normalize_brackets, parse_segment, findSplit,
      isNoteDigit, digitVal]

/-! ## Structure of the scanner -/

theorem findSplit_decomp (op cl : Char) :
    ∀ (bal : Nat) (xs inn rest : List Char),
      findSplit op cl bal xs = some (inn, rest) →
      xs = inn ++ cl :: rest := by
  intro bal xs
  induction xs generalizing bal with
  | nil => intro inn rest h; simp [findSplit] at h
  | cons x xs ih =>
    intro inn rest h
    simp only [findSplit] at h
    by_cases hop : x = op
    · rw [if_pos hop] at h
      cases hfs : findSplit op cl (bal + 1) xs with
      | none => rw [hfs] at h; simp at h
      | some p =>
        rw [hfs] at h
        obtain ⟨inn0, rest0⟩ := p
        simp at h
        obtain ⟨h1, h2⟩ := h
        have := ih (bal + 1) inn0 rest0 hfs
        subst h1 h2
        simp [this]
    · rw [if_neg hop] at h
      by_cases hcl : x = cl
      · rw [if_pos hcl] at h
        by_cases hb : bal = 1
        · rw [if_pos hb] at h
          simp at h
          obtain ⟨h1, h2⟩ := h
          subst h1 h2
          simp [hcl]
        · rw [if_neg hb] at h
          cases hfs : findSplit op cl (bal - 1) xs with
          | none => rw [hfs] at h; simp at h
          | some p =>
            rw [hfs] at h
            obtain ⟨inn0, rest0⟩ := p
            simp at h
            obtain ⟨h1, h2⟩ := h
            have := ih (bal - 1) inn0 rest0 hfs
            subst h1 h2
            simp [this]
      · rw [if_neg hcl] at h
        cases hfs : findSplit op cl bal xs with
        | none => rw [hfs] at h; simp at h
        | some p =>
          rw [hfs] at h
          obtain ⟨inn0, rest0⟩ := p
          simp at h
          obtain ⟨h1, h2⟩ := h
          have := ih bal inn0 rest0 hfs
          subst h1 h2
          simp [this]

/-! Branch-level unfolding equations for `parse_segment` (its automatic
unfolding lemma is not generated for this match pattern). -/

theorem ps_nil (d : Int) : parse_segment [] d = [] := by
  simp [parse_segment]

theorem ps_paren_some (rest inner after : List Char) (d : Int)
    (h : findSplit '(' ')' 1 rest = some (inner, after)) :
    parse_segment ('(' :: rest) d =
      parse_segment inner (d - 1) ++ parse_segment after d := by
  cases rest with
  | nil => simp [findSplit] at h
  | cons c2 rest2 =>
    simp [parse_segment]
    split
    · rename_i inner2 after2 heq
      rw [h] at heq
      injection heq with heq
      injection heq with e1 e2
      subst e1
      subst e2
      rfl
    · rename_i heq
      rw [h] at heq
      cases heq

theorem ps_paren_none (rest : List Char) (d : Int)
    (h : findSplit '(' ')' 1 rest = none) :
    parse_segment ('(' :: rest) d = Token.str "(" :: parse_segment rest d := by
  cases rest with
  | nil => simp [parse_segment, findSplit]
  | cons c2 rest2 =>
    simp [parse_segment]
    split
    · rename_i inner2 after2 heq
      rw [h] at heq
      cases heq
    · rfl

theorem ps_brack_some (rest inner after : List Char) (d : Int)
    (h : findSplit '[' ']' 1 rest = some (inner, after)) :
    parse_segment ('[' :: rest) d =
      parse_segment inner (d + 1) ++ parse_segment after d := by
  cases rest with
  | nil => simp [findSplit] at h
  | cons c2 rest2 =>
    simp [parse_segment]
    split
    · rename_i inner2 after2 heq
      rw [h] at heq
      injection heq with heq
      injection heq with e1 e2
      subst e1
      subst e2
      rfl
    · rename_i heq
      rw [h] at heq
      cases heq

theorem ps_brack_none (rest : List Char) (d : Int)
    (h : findSplit '[' ']' 1 rest = none) :
    parse_segment ('[' :: rest) d = Token.str "[" :: parse_segment rest d := by
  cases rest with
  | nil => simp [parse_segment, findSplit]
  | cons c2 rest2 =>
    simp [parse_segment]
    split
    · rename_i inner2 after2 heq
      rw [h] at heq
      cases heq
    · rfl

theorem ps_sharp_nil (d : Int) : parse_segment ['#'] d = [Token.str "#"] := by
  simp [parse_segment]

theorem ps_sharp_digit (c2 : Char) (rest2 : List Char) (d : Int)
    (h : isNoteDigit c2 = true) :
    parse_segment ('#' :: c2 :: rest2) d =
      Token.note (digitVal c2) 1 d :: parse_segment rest2 d := by
  simp [parse_segment, h]

theorem ps_sharp_other (c2 : Char) (rest2 : List Char) (d : Int)
    (h : isNoteDigit c2 = false) :
    parse_segment ('#' :: c2 :: rest2) d =
      Token.str "#" :: parse_segment (c2 :: rest2) d := by
  simp [parse_segment, h]

theorem ps_flat_nil (c : Char) (d : Int) (hc : c = 'b' ∨ c = '♭') :
    parse_segment [c] d = [Token.str (String.mk [c])] := by
  rcases hc with hc | hc <;> subst hc <;> simp [parse_segment]

theorem ps_flat_digit (c c2 : Char) (rest2 : List Char) (d : Int)
    (hc : c = 'b' ∨ c = '♭') (h : isNoteDigit c2 = true) :
    parse_segment (c :: c2 :: rest2) d =
      Token.note (digitVal c2) (-1) d :: parse_segment rest2 d := by
  rcases hc with hc | hc <;> subst hc <;> simp [parse_segment, h]

theorem ps_flat_other (c c2 : Char) (rest2 : List Char) (d : Int)
    (hc : c = 'b' ∨ c = '♭') (h : isNoteDigit c2 = false) :
    parse_segment (c :: c2 :: rest2) d =
      Token.str (String.mk [c]) :: parse_segment (c2 :: rest2) d := by
  rcases hc with hc | hc <;> subst hc <;> simp [parse_segment, h]

theorem ps_digit (c : Char) (rest : List Char) (d : Int)
    (h1 : c ≠ '(') (h2 : c ≠ '[') (h3 : c ≠ '#')
    (h4 : ¬(c = 'b' ∨ c = '♭')) (h5 : isNoteDigit c = true) :
    parse_segment (c :: rest) d =
      Token.note (digitVal c) 0 d :: parse_segment rest d := by
  cases rest with
  | nil => simp [parse_segment, h1, h2, h3, h4, h5]
  | cons c2 rest2 => simp [parse_segment, h1, h2, h3, h4, h5]

theorem ps_other (c : Char) (rest : List Char) (d : Int)
    (h1 : c ≠ '(') (h2 : c ≠ '[') (h3 : c ≠ '#')
    (h4 : ¬(c = 'b' ∨ c = '♭')) (h5 : isNoteDigit c = false) :
    parse_segment (c :: rest) d =
      Token.str (String.mk [c]) :: parse_segment rest d := by
  cases rest with
  | nil => simp [parse_segment, h1, h2, h3, h4, h5]
  | cons c2 rest2 => simp [parse_segment, h1, h2, h3, h4, h5]

theorem map_shift_shift (e f : Int) (L : List Token) :
    (L.map (shiftTok f)).map (shiftTok e) = L.map (shiftTok (f + e)) := by
  induction L with
  | nil => rfl
  | cons t L ih => cases t <;> simp [shiftTok, ih, Int.add_assoc]

/-- The octave offset threads through `parse_segment` purely additively:
scanning at offset `d` yields exactly the tokens of scanning at offset 0
with `d` added to every note's octave offset. -/
theorem parse_segment_shift (s : List Char) (d : Int) :
    parse_segment s d = (parse_segment s 0).map (shiftTok d) := by
  cases s with
  | nil => simp [ps_nil]
  | cons c rest =>
    by_cases h1 : c = '('
    · subst h1
      cases hsplit : findSplit '(' ')' 1 rest with
      | some p =>
        obtain ⟨inner, after⟩ := p
        rw [ps_paren_some rest inner after d hsplit,
            ps_paren_some rest inner after 0 hsplit,
            parse_segment_shift inner (d - 1), parse_segment_shift after d,
            parse_segment_shift inner (0 - 1)]
        simp only [List.map_append, map_shift_shift]
        rw [show (0 : Int) - 1 + d = d - 1 by ring]
      | none =>
        rw [ps_paren_none rest d hsplit, ps_paren_none rest 0 hsplit,
            parse_segment_shift rest d]
        simp [shiftTok]
    · by_cases h2 : c = '['
      · subst h2
        cases hsplit : findSplit '[' ']' 1 rest with
        | some p =>
          obtain ⟨inner, after⟩ := p
          rw [ps_brack_some rest inner after d hsplit,
              ps_brack_some rest inner after 0 hsplit,
              parse_segment_shift inner (d + 1), parse_segment_shift after d,
              parse_segment_shift inner (0 + 1)]
          simp only [List.map_append, map_shift_shift]
          rw [show (0 : Int) + 1 + d = d + 1 by ring]
        | none =>
          rw [ps_brack_none rest d hsplit, ps_brack_none rest 0 hsplit,
              parse_segment_shift rest d]
          simp [shiftTok]
      · by_cases h3 : c = '#'
        · subst h3
          cases rest with
          | nil => rw [ps_sharp_nil d, ps_sharp_nil 0]; simp [shiftTok]
          | cons c2 rest2 =>
            by_cases h4 : isNoteDigit c2
            · rw [ps_sharp_digit c2 rest2 d h4, ps_sharp_digit c2 rest2 0 h4,
                  parse_segment_shift rest2 d]
              simp [shiftTok]
            · have h4f : isNoteDigit c2 = false := by simpa using h4
              rw [ps_sharp_other c2 rest2 d h4f, ps_sharp_other c2 rest2 0 h4f,
                  parse_segment_shift (c2 :: rest2) d]
              simp [shiftTok]
        · by_cases h5 : c = 'b' ∨ c = '♭'
          · cases rest with
            | nil => rw [ps_flat_nil c d h5, ps_flat_nil c 0 h5]; simp [shiftTok]
            | cons c2 rest2 =>
              by_cases h4 : isNoteDigit c2
              · rw [ps_flat_digit c c2 rest2 d h5 h4,
                    ps_flat_digit c c2 rest2 0 h5 h4,
                    parse_segment_shift rest2 d]
                simp [shiftTok]
              · have h4f : isNoteDigit c2 = false := by simpa using h4
                rw [ps_flat_other c c2 rest2 d h5 h4f,
                    ps_flat_other c c2 rest2 0 h5 h4f,
                    parse_segment_shift (c2 :: rest2) d]
                simp [shiftTok]
          · by_cases h6 : isNoteDigit c
            · rw [ps_digit c rest d h1 h2 h3 h5 h6,
                  ps_digit c rest 0 h1 h2 h3 h5 h6,
                  parse_segment_shift rest d]
              simp [shiftTok]
            · have h6f : isNoteDigit c = false := by simpa using h6
              rw [ps_other c rest d h1 h2 h3 h5 h6f,
                  ps_other c rest 0 h1 h2 h3 h5 h6f,
                  parse_segment_shift rest d]
              simp [shiftTok]
termination_by s.length
decreasing_by
  all_goals simp_wf
  all_goals first
    | omega
    | (have hlen := findSplit_length _ _ _ _ _ _ hsplit; simp; omega)

theorem isNoteDigit_bounds (c : Char) (h : isNoteDigit c = true) :
    1 ≤ digitVal c ∧ digitVal c ≤ 7 := by
  simp only [isNoteDigit, Bool.and_eq_true, Bool.or_eq_true, beq_iff_eq] at h
  obtain ⟨-, h⟩ := h
  rcases h with ((((((h | h) | h) | h) | h) | h) | h) <;> subst h <;> decide

theorem parse_segment_note_num (s : List Char) (d : Int) :
    ∀ t ∈ parse_segment s d, note_num_ok t := by
  cases s with
  | nil => simp [ps_nil]
  | cons c rest =>
    intro t ht
    by_cases h1 : c = '('
    · subst h1
      cases hsplit : findSplit '(' ')' 1 rest with
      | some p =>
        obtain ⟨inner, after⟩ := p
        rw [ps_paren_some rest inner after d hsplit] at ht
        rcases List.mem_append.mp ht with h | h
        · exact parse_segment_note_num inner (d - 1) t h
        · exact parse_segment_note_num after d t h
      | none =>
        rw [ps_paren_none rest d hsplit] at ht
        rcases List.mem_cons.mp ht with rfl | h
        · trivial
        · exact parse_segment_note_num rest d t h
    · by_cases h2 : c = '['
      · subst h2
        cases hsplit : findSplit '[' ']' 1 rest with
        | some p =>
          obtain ⟨inner, after⟩ := p
          rw [ps_brack_some rest inner after d hsplit] at ht
          rcases List.mem_append.mp ht with h | h
          · exact parse_segment_note_num inner (d + 1) t h
          · exact parse_segment_note_num after d t h
        | none =>
          rw [ps_brack_none rest d hsplit] at ht
          rcases List.mem_cons.mp ht with rfl | h
          · trivial
          · exact parse_segment_note_num rest d t h
      · by_cases h3 : c = '#'
        · subst h3
          cases rest with
          | nil =>
            rw [ps_sharp_nil d] at ht
            rcases List.mem_singleton.mp ht with rfl
            trivial
          | cons c2 rest2 =>
            by_cases h4 : isNoteDigit c2
            · rw [ps_sharp_digit c2 rest2 d h4] at ht
              rcases List.mem_cons.mp ht with rfl | h
              · exact isNoteDigit_bounds c2 h4
              · exact parse_segment_note_num rest2 d t h
            · have h4f : isNoteDigit c2 = false := by simpa using h4
              rw [ps_sharp_other c2 rest2 d h4f] at ht
              rcases List.mem_cons.mp ht with rfl | h
              · trivial
              · exact parse_segment_note_num (c2 :: rest2) d t h
        · by_cases h5 : c = 'b' ∨ c = '♭'
          · cases rest with
            | nil =>
              rw [ps_flat_nil c d h5] at ht
              rcases List.mem_singleton.mp ht with rfl
              trivial
            | cons c2 rest2 =>
              by_cases h4 : isNoteDigit c2
              · rw [ps_flat_digit c c2 rest2 d h5 h4] at ht
                rcases List.mem_cons.mp ht with rfl | h
                · exact isNoteDigit_bounds c2 h4
                · exact parse_segment_note_num rest2 d t h
              · have h4f : isNoteDigit c2 = false := by simpa using h4
                rw [ps_flat_other c c2 rest2 d h5 h4f] at ht
                rcases List.mem_cons.mp ht with rfl | h
                · trivial
                · exact parse_segment_note_num (c2 :: rest2) d t h
          · by_cases h6 : isNoteDigit c
            · rw [ps_digit c rest d h1 h2 h3 h5 h6] at ht
              rcases List.mem_cons.mp ht with rfl | h
              · exact isNoteDigit_bounds c h6
              · exact parse_segment_note_num rest d t h
            · have h6f : isNoteDigit c = false := by simpa using h6
              rw [ps_other c rest d h1 h2 h3 h5 h6f] at ht
              rcases List.mem_cons.mp ht with rfl | h
              · trivial
              · exact parse_segment_note_num rest d t h
termination_by s.length
decreasing_by
  all_goals simp_wf
  all_goals first
    | omega
    | (have hlen := findSplit_length _ _ _ _ _ _ hsplit; simp; omega)

theorem transposeToken_isSome (so tg : Int) (t : Token) (h : note_num_ok t) :
    ∃ t1, transposeToken so tg t = some t1 ∧ note_num_ok t1 := by
  cases t with
  | str s => exact ⟨Token.str s, rfl, trivial⟩
  | note n a o =>
    obtain ⟨hl, hr⟩ := h
    have hb : ∃ base, NOTE_SEMITONES n = some base := by
      interval_cases n <;> exact ⟨_, rfl⟩
    obtain ⟨base, hb⟩ := hb
    obtain ⟨d1, a1, b1, heq, hnb, _, _, hd1, hd7, _⟩ :=
      transposeToken_note_spec so tg n a o base hb
    exact ⟨_, heq, ⟨hd1, hd7⟩⟩

theorem transpose_token_list_isSome (so tg : Int) (ts : List Token)
    (h : ∀ t ∈ ts, note_num_ok t) :
    ∃ us, transpose_token_list so tg ts = some us ∧
      ∀ u ∈ us, note_num_ok u := by
  induction ts with
  | nil => exact ⟨[], rfl, by simp⟩
  | cons t ts ih =>
    obtain ⟨t1, ht1, ht1ok⟩ := transposeToken_isSome so tg t (h t (by simp))
    obtain ⟨us, hus, husok⟩ := ih (fun u hu => h u (by simp [hu]))
    refine ⟨t1 :: us, ?_, ?_⟩
    · simp [transpose_token_list, ht1, hus]
    · intro u hu
      rcases List.mem_cons.mp hu with rfl | hu
      · exact ht1ok
      · exact husok u hu

/-- The whole pipeline always succeeds with an empty warning list. -/
theorem transpose_sheet_total (text tgt src : String) :
    ∃ out, transpose_sheet text tgt src = some (out, []) := by
  obtain ⟨us, hus, -⟩ :=
    transpose_token_list_isSome (resolved_key_offset src)
      (resolved_key_offset tgt) (parse_to_tokens text)
      (fun t ht => parse_segment_note_num _ 0 t ht)
  exact ⟨render_tokens us, by simp [transpose_sheet, transpose_tokens, hus]⟩

/-- C6: a note's octave offset is the signed nesting depth of the matched
brackets enclosing it: each matched `(...)` level subtracts 1 and each
matched `[...]` level adds 1, the offset accumulating additively with the
surrounding offset (first conjunct: scanning at offset `d` equals scanning
at offset 0 with `d` added to every note), while an unmatched opening
bracket is emitted as a single literal and the following text is scanned
at the unchanged outer offset; concrete instances: `((1))` ↦ −2, `[[1]]`
↦ +2, `(1[2]3)` ↦ −1, 0, −1, and `(1[2` leaves both unmatched brackets as
literals with the notes at the outer offsets. -/
theorem C6_bracket_nesting_offsets :
    (∀ (s : List Char) (d : Int),
        parse_segment s d = (parse_segment s 0).map (shiftTok d)) ∧
    (∀ (rest inner after : List Char) (d : Int),
        findSplit '(' ')' 1 rest = some (inner, after) →
        parse_segment ('(' :: rest) d =
          parse_segment inner (d - 1) ++ parse_segment after d) ∧
    (∀ (rest inner after : List Char) (d : Int),
        findSplit '[' ']' 1 rest = some (inner, after) →
        parse_segment ('[' :: rest) d =
          parse_segment inner (d + 1) ++ parse_segment after d) ∧
    (∀ (rest : List Char) (d : Int),
        findSplit '(' ')' 1 rest = none →
        parse_segment ('(' :: rest) d =
          Token.str "(" :: parse_segment rest d) ∧
    (∀ (rest : List Char) (d : Int),
        findSplit '[' ']' 1 rest = none →
        parse_segment ('[' :: rest) d =
          Token.str "[" :: parse_segment rest d) ∧
    parse_to_tokens "((1))" = [Token.note 1 0 (-2)] ∧
    parse_to_tokens "[[1]]" = [Token.note 1 0 2] ∧
    parse_to_tokens "(1[2]3)" =
      [Token.note 1 0 (-1), Token.note 2 0 0, Token.note 3 0 (-1)] ∧
    parse_to_tokens "(1[2" =
      [Token.str "(", Token.note 1 0 0, Token.str "[", Token.note 2 0 0] := by
  refine ⟨parse_segment_shift, ps_paren_some, ps_brack_some,
    ps_paren_none, ps_brack_none, ?_, ?_, ?_, ?_⟩ <;>
    simp [parse_to_tokens, normalize_brackets, parse_segment, findSplit,
      isNoteDigit, digitVal]

/-- Witness for C6: the additive-offset conjunct applied at a concrete
input and offset. -/
theorem C6_witness :
    parse_segment ("x(1)y".data) 5 =
      (parse_segment ("x(1)y".data) 0).map (shiftTok 5) :=
  C6_bracket_nesting_offsets.1 ("x(1)y".data) 5

/-- C8: a key name whose capitalization is not in the table resolves to
semitone offset 0, i.e. behaves exactly like key C, both as source and as
target, and the transposition still completes without any failure. -/
theorem C8_unknown_key_leniency (k : String)
    (h : KEY_OFFSETS (capitalize k) = none) :
    resolved_key_offset k = 0 ∧
    resolved_key_offset k = resolved_key_offset "C" ∧
    (∀ text src, transpose_sheet text k src = transpose_sheet text "C" src) ∧
    (∀ text tgt, transpose_sheet text tgt k = transpose_sheet text tgt "C") ∧
    (∀ text src, ∃ out, transpose_sheet text k src = some (out, [])) := by
  have h0 : resolved_key_offset k = 0 := by
    simp [resolved_key_offset, h]
  have hC : resolved_key_offset "C" = 0 := rfl
  refine ⟨h0, by rw [h0, hC], ?_, ?_, ?_⟩
  · intro text src
    simp [transpose_sheet, transpose_tokens, h0, hC]
  · intro text tgt
    simp [transpose_sheet, transpose_tokens, h0, hC]
  · intro text src
    exact transpose_sheet_total text k src

/-- Witness for C8 at the unrecognized key name "X". -/
theorem C8_witness :
    KEY_OFFSETS (capitalize "X") = none ∧
    (resolved_key_offset "X" = 0 ∧
     resolved_key_offset "X" = resolved_key_offset "C" ∧
     (∀ text src,
        transpose_sheet text "X" src = transpose_sheet text "C" src) ∧
     (∀ text tgt,
        transpose_sheet text tgt "X" = transpose_sheet text tgt "C") ∧
     (∀ text src, ∃ out, transpose_sheet text "X" src = some (out, []))) :=
  ⟨rfl, C8_unknown_key_leniency "X" rfl⟩

theorem data_mk (l : List Char) : (String.mk l).data = l := rfl

theorem lit_chars_append (ts us : List Token) :
    lit_chars (ts ++ us) = lit_chars ts ++ lit_chars us := by
  induction ts with
  | nil => rfl
  | cons t ts ih => cases t <;> simp [lit_chars, ih]

theorem isNoteDigit_not_plain (c : Char) (h : isNoteDigit c = true) :
    plain_char c = false := by
  simp only [isNoteDigit, Bool.and_eq_true, Bool.or_eq_true, beq_iff_eq] at h
  obtain ⟨-, h⟩ := h
  rcases h with ((((((h | h) | h) | h) | h) | h) | h) <;> subst h <;> decide

/-- The scanner preserves every plain character, in value and order: the
literal characters of the token list, restricted to plain characters,
are exactly the plain characters of the input. -/
theorem parse_segment_plain (s : List Char) (d : Int) :
    (lit_chars (parse_segment s d)).filter plain_char =
      s.filter plain_char := by
  have hpo : plain_char '(' = false := by decide
  have hpc : plain_char ')' = false := by decide
  have hbo : plain_char '[' = false := by decide
  have hbc : plain_char ']' = false := by decide
  have hsh : plain_char '#' = false := by decide
  have hfb : plain_char 'b' = false := by decide
  have hff : plain_char '♭' = false := by decide
  have hdp : "(".data = ['('] := rfl
  have hdb : "[".data = ['['] := rfl
  have hdsh : "#".data = ['#'] := rfl
  cases s with
  | nil => simp [ps_nil, lit_chars]
  | cons c rest =>
    by_cases h1 : c = '('
    · subst h1
      cases hsplit : findSplit '(' ')' 1 rest with
      | some p =>
        obtain ⟨inner, after⟩ := p
        have hdec := findSplit_decomp '(' ')' 1 rest inner after hsplit
        rw [ps_paren_some rest inner after d hsplit, lit_chars_append,
            List.filter_append, parse_segment_plain inner (d - 1),
            parse_segment_plain after d, hdec]
        simp [List.filter_cons, List.filter_append, hpo, hpc]
      | none =>
        rw [ps_paren_none rest d hsplit]
        simp [lit_chars, hdp, List.filter_cons, List.filter_append, hpo,
          parse_segment_plain rest d]
    · by_cases h2 : c = '['
      · subst h2
        cases hsplit : findSplit '[' ']' 1 rest with
        | some p =>
          obtain ⟨inner, after⟩ := p
          have hdec := findSplit_decomp '[' ']' 1 rest inner after hsplit
          rw [ps_brack_some rest inner after d hsplit, lit_chars_append,
              List.filter_append, parse_segment_plain inner (d + 1),
              parse_segment_plain after d, hdec]
          simp [List.filter_cons, List.filter_append, hbo, hbc]
        | none =>
          rw [ps_brack_none rest d hsplit]
          simp [lit_chars, hdb, List.filter_cons, List.filter_append, hbo,
            parse_segment_plain rest d]
      · by_cases h3 : c = '#'
        · subst h3
          cases rest with
          | nil => simp [ps_sharp_nil, lit_chars, hdsh, List.filter_cons, hsh]
          | cons c2 rest2 =>
            by_cases h4 : isNoteDigit c2
            · have hc2 := isNoteDigit_not_plain c2 h4
              rw [ps_sharp_digit c2 rest2 d h4]
              simp [lit_chars, List.filter_cons, hsh, hc2,
                parse_segment_plain rest2 d]
            · have h4f : isNoteDigit c2 = false := by simpa using h4
              rw [ps_sharp_other c2 rest2 d h4f]
              simp [lit_chars, hdsh, List.filter_cons, List.filter_append,
                hsh, parse_segment_plain (c2 :: rest2) d]
        · by_cases h5 : c = 'b' ∨ c = '♭'
          · cases rest with
            | nil =>
              rcases h5 with hc | hc <;> subst hc
              · rw [ps_flat_nil 'b' d (Or.inl rfl)]
                simp [lit_chars, data_mk, List.filter_cons,
                  List.filter_append, hfb]
              · rw [ps_flat_nil '♭' d (Or.inr rfl)]
                simp [lit_chars, data_mk, List.filter_cons,
                  List.filter_append, hff]
            | cons c2 rest2 =>
              by_cases h4 : isNoteDigit c2
              · have hc2 := isNoteDigit_not_plain c2 h4
                rw [ps_flat_digit c c2 rest2 d h5 h4]
                rcases h5 with hc | hc <;> subst hc <;>
                  simp [lit_chars, List.filter_cons, hfb, hff, hc2,
                    parse_segment_plain rest2 d]
              · have h4f : isNoteDigit c2 = false := by simpa using h4
                rw [ps_flat_other c c2 rest2 d h5 h4f]
                rcases h5 with hc | hc <;> subst hc <;>
                  simp [lit_chars, data_mk, List.filter_cons,
                    List.filter_append, hfb, hff,
                    parse_segment_plain (c2 :: rest2) d]
          · by_cases h6 : isNoteDigit c
            · have hc := isNoteDigit_not_plain c h6
              rw [ps_digit c rest d h1 h2 h3 h5 h6]
              simp [lit_chars, List.filter_cons, hc,
                parse_segment_plain rest d]
            · have h6f : isNoteDigit c = false := by simpa using h6
              rw [ps_other c rest d h1 h2 h3 h5 h6f]
              by_cases hc : plain_char c <;>
                simp [lit_chars, data_mk, List.filter_cons,
                  List.filter_append, hc, parse_segment_plain rest d]
termination_by s.length
decreasing_by
  all_goals simp_wf
  all_goals first
    | omega
    | (have hlen := findSplit_length _ _ _ _ _ _ hsplit; simp; omega)

/-- Bracket normalization does not touch plain characters. -/
theorem normalize_filter_plain (s : List Char) :
    (normalize_brackets s).filter plain_char = s.filter plain_char := by
  induction s with
  | nil => rfl
  | cons c cs ih =>
    simp only [normalize_brackets, List.map_map] at ih ⊢
    simp only [List.map_cons, Function.comp]
    by_cases hc1 : c = '（'
    · subst hc1
      simp [List.filter_cons, ih,
        (by decide : plain_char '(' = false),
        (by decide : plain_char '（' = false)]
    · by_cases hc2 : c = '）'
      · subst hc2
        simp [List.filter_cons, ih,
          (by decide : plain_char ')' = false),
          (by decide : plain_char '）' = false)]
      · by_cases hc3 : c = '【'
        · subst hc3
          simp [List.filter_cons, ih,
            (by decide : plain_char '[' = false),
            (by decide : plain_char '【' = false)]
        · by_cases hc4 : c = '】'
          · subst hc4
            simp [List.filter_cons, ih,
              (by decide : plain_char ']' = false),
              (by decide : plain_char '】' = false)]
          · simp [List.filter_cons, hc1, hc2, hc3, hc4, ih]

/-- `transposeToken` maps a literal to the same literal and a note to some
note. -/
theorem transposeToken_shape (so tg : Int) (t t1 : Token)
    (h : transposeToken so tg t = some t1) :
    (∃ s, t = Token.str s ∧ t1 = Token.str s) ∨
    (∃ n a o n1 a1 o1, t = Token.note n a o ∧ t1 = Token.note n1 a1 o1) := by
  cases t with
  | str s =>
    left
    refine ⟨s, rfl, ?_⟩
    simpa [transposeToken] using h.symm
  | note n a o =>
    right
    cases hb : NOTE_SEMITONES n with
    | none =>
      have hnone : transposeToken so tg (Token.note n a o) = none := by
        simp [transposeToken, hb]
      rw [hnone] at h
      cases h
    | some base =>
      obtain ⟨d1, a1, b1, heq, -, -, -, -, -, -⟩ :=
        transposeToken_note_spec so tg n a o base hb
      rw [heq] at h
      injection h with h
      exact ⟨n, a, o, _, _, _, rfl, h.symm⟩

/-- Transposition preserves the literal characters of a token list. -/
theorem transpose_lit_chars (so tg : Int) (ts us : List Token)
    (h : transpose_token_list so tg ts = some us) :
    lit_chars us = lit_chars ts := by
  induction ts generalizing us with
  | nil =>
    simp only [transpose_token_list, Option.some.injEq] at h
    subst h; rfl
  | cons t ts ih =>
    simp only [transpose_token_list] at h
    cases ht : transposeToken so tg t with
    | none => rw [ht] at h; cases h
    | some t1 =>
      rw [ht] at h
      cases hl : transpose_token_list so tg ts with
      | none => rw [hl] at h; cases h
      | some us1 =>
        rw [hl] at h
        injection h with h
        subst h
        rcases transposeToken_shape so tg t t1 ht with
          ⟨s, rfl, rfl⟩ | ⟨n, a, o, n1, a1, o1, rfl, rfl⟩ <;>
          simp [lit_chars, ih us1 hl]

theorem filter_replicate_not (k : Nat) (c : Char)
    (hc : plain_char c = false) :
    (List.replicate k c).filter plain_char = [] := by
  induction k with
  | zero => rfl
  | succ k ih => simp [List.replicate_succ, List.filter_cons, hc, ih]

theorem toString_digit_plain (n : Nat) (h1 : 1 ≤ n) (h7 : n ≤ 7) :
    (toString n).data.filter plain_char = [] := by
  interval_cases n <;> decide

/-- A rendered note contributes no plain characters. -/
theorem render_note_no_plain (n : Nat) (a o : Int)
    (h1 : 1 ≤ n) (h7 : n ≤ 7) :
    ((render_token (Token.note n a o)).data).filter plain_char = [] := by
  have hds := toString_digit_plain n h1 h7
  have hp1 := filter_replicate_not o.natAbs '(' (by decide)
  have hp2 := filter_replicate_not o.natAbs ')' (by decide)
  have hp3 := filter_replicate_not o.toNat '[' (by decide)
  have hp4 := filter_replicate_not o.toNat ']' (by decide)
  have hsharp : List.filter plain_char "#".data = [] := by decide
  have hflat : List.filter plain_char "b".data = [] := by decide
  have hempty : List.filter plain_char "".data = [] := by decide
  simp only [render_token]
  split_ifs <;>
    simp only [String.data_append, List.filter_append, data_mk, hp1, hp2,
      hp3, hp4, hds, hsharp, hflat, hempty, List.append_nil, List.nil_append]

/-- Rendering keeps exactly the literal characters, as far as plain
characters are concerned. -/
theorem render_tokens_plain (ts : List Token)
    (h : ∀ t ∈ ts, note_num_ok t) :
    ((render_tokens ts).data).filter plain_char =
      (lit_chars ts).filter plain_char := by
  induction ts with
  | nil => rfl
  | cons t ts ih =>
    have iht := ih (fun u hu => h u (by simp [hu]))
    cases t with
    | str s =>
      simp [render_tokens, String.data_join, lit_chars, List.filter_append,
        render_token] at iht ⊢
      simp [iht]
    | note n a o =>
      obtain ⟨hn1, hn7⟩ := h (Token.note n a o) (by simp)
      have hr := render_note_no_plain n a o hn1 hn7
      simp [render_tokens, String.data_join, lit_chars, List.filter_append,
        hr] at iht ⊢
      simp [iht]

/-- Text with no degree digit can only scan to literal tokens. -/
theorem parse_segment_all_str (s : List Char) (d : Int)
    (hnd : ∀ c ∈ s, isNoteDigit c = false) :
    ∀ t ∈ parse_segment s d, ∃ u, t = Token.str u := by
  cases s with
  | nil => simp [ps_nil]
  | cons c rest =>
    have hrest : ∀ c2 ∈ rest, isNoteDigit c2 = false :=
      fun c2 hc2 => hnd c2 (by simp [hc2])
    intro t ht
    by_cases h1 : c = '('
    · subst h1
      cases hsplit : findSplit '(' ')' 1 rest with
      | some p =>
        obtain ⟨inner, after⟩ := p
        have hdec := findSplit_decomp '(' ')' 1 rest inner after hsplit
        have hinner : ∀ c2 ∈ inner, isNoteDigit c2 = false :=
          fun c2 hc2 => hrest c2 (by simp [hdec, hc2])
        have hafter : ∀ c2 ∈ after, isNoteDigit c2 = false :=
          fun c2 hc2 => hrest c2 (by simp [hdec, hc2])
        rw [ps_paren_some rest inner after d hsplit] at ht
        rcases List.mem_append.mp ht with h | h
        · exact parse_segment_all_str inner (d - 1) hinner t h
        · exact parse_segment_all_str after d hafter t h
      | none =>
        rw [ps_paren_none rest d hsplit] at ht
        rcases List.mem_cons.mp ht with rfl | h
        · exact ⟨_, rfl⟩
        · exact parse_segment_all_str rest d hrest t h
    · by_cases h2 : c = '['
      · subst h2
        cases hsplit : findSplit '[' ']' 1 rest with
        | some p =>
          obtain ⟨inner, after⟩ := p
          have hdec := findSplit_decomp '[' ']' 1 rest inner after hsplit
          have hinner : ∀ c2 ∈ inner, isNoteDigit c2 = false :=
            fun c2 hc2 => hrest c2 (by simp [hdec, hc2])
          have hafter : ∀ c2 ∈ after, isNoteDigit c2 = false :=
            fun c2 hc2 => hrest c2 (by simp [hdec, hc2])
          rw [ps_brack_some rest inner after d hsplit] at ht
          rcases List.mem_append.mp ht with h | h
          · exact parse_segment_all_str inner (d + 1) hinner t h
          · exact parse_segment_all_str after d hafter t h
        | none =>
          rw [ps_brack_none rest d hsplit] at ht
          rcases List.mem_cons.mp ht with rfl | h
          · exact ⟨_, rfl⟩
          · exact parse_segment_all_str rest d hrest t h
      · by_cases h3 : c = '#'
        · subst h3
          cases rest with
          | nil =>
            rw [ps_sharp_nil d] at ht
            rcases List.mem_singleton.mp ht with rfl
            exact ⟨_, rfl⟩
          | cons c2 rest2 =>
            have h4f : isNoteDigit c2 = false := hrest c2 (by simp)
            rw [ps_sharp_other c2 rest2 d h4f] at ht
            rcases List.mem_cons.mp ht with rfl | h
            · exact ⟨_, rfl⟩
            · exact parse_segment_all_str (c2 :: rest2) d hrest t h
        · by_cases h5 : c = 'b' ∨ c = '♭'
          · cases rest with
            | nil =>
              rw [ps_flat_nil c d h5] at ht
              rcases List.mem_singleton.mp ht with rfl
              exact ⟨_, rfl⟩
            | cons c2 rest2 =>
              have h4f : isNoteDigit c2 = false := hrest c2 (by simp)
              rw [ps_flat_other c c2 rest2 d h5 h4f] at ht
              rcases List.mem_cons.mp ht with rfl | h
              · exact ⟨_, rfl⟩
              · exact parse_segment_all_str (c2 :: rest2) d hrest t h
          · have h6f : isNoteDigit c = false := hnd c (by simp)
            rw [ps_other c rest d h1 h2 h3 h5 h6f] at ht
            rcases List.mem_cons.mp ht with rfl | h
            · exact ⟨_, rfl⟩
            · exact parse_segment_all_str rest d hrest t h
termination_by s.length
decreasing_by
  all_goals simp_wf
  all_goals subst_vars
  all_goals first
    | (simp only [List.length_cons]; omega)
    | (have hlen := findSplit_length _ _ _ _ _ _ hsplit;
       simp only [List.length_cons]; omega)

/-- C7 counterexample: `(` in `"(a)"` is not part of any recognized note,
yet it does not pass through the pipeline: the matched, note-free bracket
pair is dropped entirely and the output is just `"a"`. -/
theorem C7_counterexample :
    transpose_sheet "(a)" "D" "C" = some ("a", []) ∧
    '(' ∈ "(a)".data ∧ '(' ∉ "a".data := by
  refine ⟨?_, by decide, by decide⟩
  simp [transpose_sheet, parse_to_tokens, normalize_brackets, parse_segment,
    findSplit, isNoteDigit, digitVal, transpose_tokens, transpose_token_list,
    transposeToken, render_tokens, render_token, resolved_key_offset,
    capitalize, KEY_OFFSETS, NOTE_SEMITONES, SEMITONE_TO_NOTE, str_toNat]
  decide

/-- C7 (amended): for every input text and any keys, the pipeline
succeeds and every plain character — one that is not an ASCII or
full-width bracket, not an accidental mark `#`/`b`/`♭`, and not a degree
digit 1–7 — passes through tokenize → transpose → render unchanged in
value and in relative position among the other plain characters; and the
transposer returns every literal token unchanged.  (Bracket characters
are excluded: a matched bracket pair is consumed as octave structure and
re-synthesized from the notes' octave offsets, so it can disappear, as
`"(a)"` shows.) -/
theorem C7_plain_text_preservation (text src tgt : String) :
    (∃ out, transpose_sheet text tgt src = some (out, []) ∧
       out.data.filter plain_char = text.data.filter plain_char) ∧
    (∀ (so tg : Int) (s : String),
        transposeToken so tg (Token.str s) = some (Token.str s)) := by
  constructor
  · obtain ⟨us, hus, husok⟩ :=
      transpose_token_list_isSome (resolved_key_offset src)
        (resolved_key_offset tgt) (parse_to_tokens text)
        (fun t ht => parse_segment_note_num _ 0 t ht)
    refine ⟨render_tokens us, ?_, ?_⟩
    · simp [transpose_sheet, transpose_tokens, hus]
    · calc ((render_tokens us).data).filter plain_char
          = (lit_chars us).filter plain_char :=
            render_tokens_plain us husok
        _ = (lit_chars (parse_to_tokens text)).filter plain_char := by
            rw [transpose_lit_chars _ _ _ _ hus]
        _ = (normalize_brackets text.data).filter plain_char :=
            parse_segment_plain _ 0
        _ = text.data.filter plain_char := normalize_filter_plain _
  · intro so tg s
    rfl

/-- Witness for C7 (amended) at the concrete text `"1 a"`, keys C → D. -/
theorem C7_witness :
    (∃ out, transpose_sheet "1 a" "D" "C" = some (out, []) ∧
       out.data.filter plain_char = "1 a".data.filter plain_char) ∧
    (∀ (so tg : Int) (s : String),
        transposeToken so tg (Token.str s) = some (Token.str s)) :=
  C7_plain_text_preservation "1 a" "C" "D"

/-- C9: a matched bracket pair never leaves bracket characters in the
token stream — the pair enclosing no note vanishes from the output
(`"(a)"` renders as `"a"` for any keys), note-free text scans to literal
tokens only, and the renderer emits brackets only around notes with a
nonzero octave offset (a note at offset 0 renders bare, and a literal
renders as its own text). -/
theorem C9_noteless_bracket_pairs :
    (∀ tgt src, transpose_sheet "(a)" tgt src = some ("a", [])) ∧
    (∀ (s : List Char) (d : Int), (∀ c ∈ s, isNoteDigit c = false) →
        ∀ t ∈ parse_segment s d, ∃ u, t = Token.str u) ∧
    (∀ (n : Nat) (a : Int),
        render_token (Token.note n a 0) =
          (if a = 1 then "#" else if a = -1 then "b" else "") ++
            toString n) ∧
    (∀ s : String, render_token (Token.str s) = s) := by
  refine ⟨?_, parse_segment_all_str, ?_, fun s => rfl⟩
  · intro tgt src
    simp [transpose_sheet, parse_to_tokens, normalize_brackets,
      parse_segment, findSplit, isNoteDigit, transpose_tokens,
      transpose_token_list, transposeToken, render_tokens, render_token]
    decide
  · intro n a
    simp [render_token]

/-- Witness for C9: the note-free conjunct applied at the concrete
bracketed text `"(a)"`. -/
theorem C9_witness :
    (∀ c ∈ ("(a)".data), isNoteDigit c = false) ∧
    ∀ t ∈ parse_segment ("(a)".data) 0, ∃ u, t = Token.str u :=
  ⟨by decide, C9_noteless_bracket_pairs.2.1 ("(a)".data) 0 (by decide)⟩

/-- C10: the full-width bracket glyphs are all gone after normalization,
normalization happens before scanning, and a full-width glyph that ends
up treated as a literal (an unmatched full-width opening bracket) shows
up in the output as its ASCII replacement. -/
theorem C10_fullwidth_normalization :
    (∀ (s : List Char), ∀ c ∈ normalize_brackets s,
        c ≠ '（' ∧ c ≠ '）' ∧ c ≠ '【' ∧ c ≠ '】') ∧
    (∀ text : String,
        parse_to_tokens text = parse_segment (normalize_brackets text.data) 0) ∧
    transpose_sheet "（1" "C" "C" = some ("(1", []) ∧
    transpose_sheet "（1）" "C" "C" = some ("(1)", []) := by
  refine ⟨?_, fun text => rfl, ?_, ?_⟩
  · intro s c hc
    simp only [normalize_brackets, List.map_map, List.mem_map,
      Function.comp] at hc
    obtain ⟨c0, -, rfl⟩ := hc
    by_cases hc1 : c0 = '（'
    · subst hc1; decide
    · by_cases hc2 : c0 = '）'
      · subst hc2; decide
      · by_cases hc3 : c0 = '【'
        · subst hc3; decide
        · by_cases hc4 : c0 = '】'
          · subst hc4; decide
          · simp [hc1, hc2, hc3, hc4]
  · simp [transpose_sheet, parse_to_tokens, normalize_brackets,
      parse_segment, findSplit, isNoteDigit, digitVal, transpose_tokens,
      transpose_token_list, transposeToken, render_tokens, render_token,
      resolved_key_offset, capitalize, KEY_OFFSETS, NOTE_SEMITONES,
      SEMITONE_TO_NOTE, str_toNat]
    decide
  · simp [transpose_sheet, parse_to_tokens, normalize_brackets,
      parse_segment, findSplit, isNoteDigit, digitVal, transpose_tokens,
      transpose_token_list, transposeToken, render_tokens, render_token,
      resolved_key_offset, capitalize, KEY_OFFSETS, NOTE_SEMITONES,
      SEMITONE_TO_NOTE, str_toNat]
    decide

/-- Witness for C10: the no-full-width-glyph conjunct applied at a
concrete mixed input. -/
theorem C10_witness :
    ∀ c ∈ normalize_brackets ("a（1】".data),
      c ≠ '（' ∧ c ≠ '）' ∧ c ≠ '【' ∧ c ≠ '】' :=
  C10_fullwidth_normalization.1 ("a（1】".data)

end Harmonica
